import Mathlib

/-!
# Verification of the svgtypes SVG number scanner (`src/number.rs`)

A shallow embedding of the number scanner and the `<list-of-numbers>`
parser of the repository.  The input buffer is modelled as a `List Char`
together with a cursor position; the `f64` result of a scan is modelled
as the exact decimal rational of the matched lexeme.

The file first gives the data model (the `Stream` cursor, modelled from
the spec, since `stream.rs` is not part of the sources), then the
functions of `src/number.rs` translated clause by clause, and finally
the theorems about the claims.
-/

set_option exponentiation.threshold 1100
set_option maxRecDepth 4000

namespace Svgtypes

/-- The error type of the crate (spec §3): `InvalidNumber(position)`,
`UnexpectedEndOfStream`, `UnexpectedData(position)`; a position is the
1-based character offset of the failed token's first byte. -/
inductive Error where
  | InvalidNumber : Nat → Error
  | UnexpectedEndOfStream : Error
  | UnexpectedData : Nat → Error
deriving DecidableEq, Repr

instance {ε α : Type} [DecidableEq ε] [DecidableEq α] : DecidableEq (Except ε α) := fun a b =>
  match a, b with
  | .error e, .error f =>
    match decEq e f with
    | isTrue h => isTrue (h ▸ rfl)
    | isFalse h => isFalse fun hh => h (by cases hh; rfl)
  | .error _, .ok _ => isFalse fun hh => by cases hh
  | .ok _, .error _ => isFalse fun hh => by cases hh
  | .ok x, .ok y =>
    match decEq x y with
    | isTrue h => isTrue (h ▸ rfl)
    | isFalse h => isFalse fun hh => h (by cases hh; rfl)

/-- Modelled from the spec (§4.1 step 1): the whitespace bytes are
space, tab, newline and carriage return (`ByteExt::is_space`). -/
def isSpace (c : Char) : Bool :=
  c == ' ' || c == '\t' || c == '\n' || c == '\r'

/-- Modelled from the spec (§4.1 step 4): a decimal digit `b'0'..=b'9'`
(`ByteExt::is_digit`). -/
def isDigit (c : Char) : Bool :=
  48 ≤ c.toNat && c.toNat ≤ 57

/-- Modelled from the spec (§4.1 step 3): a sign byte `+`/`-`
(`ByteExt::is_sign`). -/
def isSign (c : Char) : Bool :=
  c == '+' || c == '-'

/-- Length of the maximal prefix of `l` whose characters satisfy `p`;
the semantics of the cursor's "skip while" operations. -/
def countLeading (p : Char → Bool) : List Char → Nat
  | [] => 0
  | c :: t => if p c then countLeading p t + 1 else 0

/-- Modelled from the spec (§2, §6): the `Stream` cursor is a position
over an immutable text buffer.  The buffer is modelled at character
granularity (`List Char`); on such a buffer a byte offset and a
character offset coincide, so `calc_char_pos_at` is `offset + 1`. -/
structure Stream where
  text : List Char
  pos : Nat
deriving DecidableEq, Repr

namespace Stream

/-- Modelled from the spec (§6): `at_end()` — the cursor is at or past
the end of the buffer. -/
def at_end (s : Stream) : Bool :=
  s.text.length ≤ s.pos

/-- Modelled from the spec (§6): `curr_byte()` — the byte at the
current position, or `UnexpectedEndOfStream`. -/
def curr_byte (s : Stream) : Except Error Char :=
  match s.text.drop s.pos with
  | [] => .error .UnexpectedEndOfStream
  | c :: _ => .ok c

/-- Modelled from the spec (§6): `next_byte()` — non-consuming one-byte
lookahead, the byte after the current one, or `UnexpectedEndOfStream`. -/
def next_byte (s : Stream) : Except Error Char :=
  match s.text.drop (s.pos + 1) with
  | [] => .error .UnexpectedEndOfStream
  | c :: _ => .ok c

/-- Modelled from the spec (§6): `advance(n)`. -/
def advance (s : Stream) (n : Nat) : Stream :=
  ⟨s.text, s.pos + n⟩

/-- Modelled from the spec (§6): `skip_spaces()` — advance over the
maximal run of whitespace at the cursor. -/
def skip_spaces (s : Stream) : Stream :=
  ⟨s.text, s.pos + countLeading isSpace (s.text.drop s.pos)⟩

/-- Modelled from the spec (§6): `skip_digits()` — advance over the
maximal run of decimal digits at the cursor. -/
def skip_digits (s : Stream) : Stream :=
  ⟨s.text, s.pos + countLeading isDigit (s.text.drop s.pos)⟩

/-- Modelled from the spec (§6): `slice_back(start)` — the buffer
substring from `start` to the current position. -/
def slice_back (s : Stream) (start : Nat) : List Char :=
  (s.text.take s.pos).drop start

/-- Modelled from the spec (§6): `jump_to_end()`. -/
def jump_to_end (s : Stream) : Stream :=
  ⟨s.text, s.text.length⟩

/-- Modelled from the spec (§6, §4.1): `calc_char_pos_at(offset)` —
the 1-based character position of the byte offset; on the
character-granular buffer model this is `offset + 1`. -/
def calc_char_pos_at (_s : Stream) (offset : Nat) : Nat :=
  offset + 1

/-- Modelled from the spec (§6): `calc_char_pos()` — the 1-based
character position of the cursor. -/
def calc_char_pos (s : Stream) : Nat :=
  s.calc_char_pos_at s.pos

end Stream

/-- Digit run to its value: `digitsToNat ['4','2'] = 42`. -/
def digitsToNat (l : List Char) : Nat :=
  l.foldl (fun acc c => acc * 10 + (c.toNat - 48)) 0

/-- An optional leading `+`/`-` and the rest, as in Rust's float
grammar: the sign factor and the remaining characters. -/
def readSign : List Char → Int × List Char
  | [] => (1, [])
  | c :: t =>
    if c = '+' then (1, t)
    else if c = '-' then (-1, t)
    else (1, c :: t)

/-- The exact rational `m * 10 ^ e`. -/
def decValue (m : Int) (e : Int) : ℚ :=
  if 0 ≤ e then ((m * 10 ^ e.toNat : Int) : ℚ)
  else mkRat m (10 ^ (-e).toNat)

/-- Modelled from the spec (§4.1 step 7): the "standard text-to-double
routine" is Rust's `f64::from_str`.  Its numeric grammar is
`[+-]? (digits [. digits?] | . digits) ([eE] [+-]? digits)?`, the whole
input must be consumed, and at least one mantissa digit and (when an
exponent marker is present) one exponent digit are required.  The value
is modelled as the exact decimal rational (rounding to the nearest
double is not modelled); the special forms `inf`/`NaN` are omitted —
a scanner slice only ever contains `[0-9+-.eE]`. -/
def rustParseF64 (l : List Char) : Option ℚ :=
  let sgn := (readSign l).1
  let l1 := (readSign l).2
  let ip := l1.take (countLeading isDigit l1)
  let l2 := l1.drop (countLeading isDigit l1)
  let fp :=
    if l2.head? = some '.' then (l2.drop 1).take (countLeading isDigit (l2.drop 1))
    else []
  let l3 :=
    if l2.head? = some '.' then (l2.drop 1).drop (countLeading isDigit (l2.drop 1))
    else l2
  if ip.length = 0 ∧ fp.length = 0 then none
  else
    let m : Int := sgn * (digitsToNat ip * 10 ^ fp.length + digitsToNat fp)
    if l3 = [] then some (decValue m (-(fp.length : Int)))
    else if l3.head? = some 'e' ∨ l3.head? = some 'E' then
      let esgn := (readSign (l3.drop 1)).1
      let t1 := (readSign (l3.drop 1)).2
      let ecount := countLeading isDigit t1
      if ecount = 0 ∨ ¬ ecount = t1.length then none
      else some (decValue m (esgn * (digitsToNat (t1.take ecount)) - (fp.length : Int)))
    else none

/-- Modelled from the spec (§3, glossary): `f64::is_finite` — the value
is neither NaN nor ±Infinity; the exact decimal value `n` converts to a
finite double exactly when its magnitude is below the binary64 range,
modelled as `|n| < 2 ^ 1024`. -/
def isFiniteF64 (n : ℚ) : Bool :=
  decide (n.num.natAbs < 2 ^ 1024 * n.den)

namespace Stream

/-- `number.rs` lines 64-68: the `match c` on the integer part — a
digit starts a maximal digit run, a dot is left for the fraction part,
anything else is a grammar failure. -/
def intMatch (s : Stream) (c : Char) : Except Error Stream :=
  if isDigit c then .ok s.skip_digits
  else if c = '.' then .ok s
  else .error (.InvalidNumber 0)

/-- `number.rs` lines 55-68: read the current byte, consume an optional
sign (re-reading the current byte), then the integer part. -/
def scanSignAndInt (s : Stream) : Except Error Stream :=
  match s.curr_byte with
  | .error e => .error e
  | .ok c =>
    if isSign c then
      let s1 := s.advance 1
      match s1.curr_byte with
      | .error e => .error e
      | .ok c1 => intMatch s1 c1
    else intMatch s c

/-- `number.rs` lines 71-74: the fraction part — if the current byte is
a dot, consume it and a possibly empty digit run. -/
def scanFraction (s : Stream) : Stream :=
  match s.curr_byte with
  | .ok c => if c = '.' then (s.advance 1).skip_digits else s
  | .error _ => s

/-- `number.rs` lines 76-95: the exponent part — on `e`/`E` look one
byte ahead; `m`/`x` means a unit suffix and nothing is consumed;
otherwise consume the marker, then a sign and a digit run or a digit
run, else fail. -/
def scanExponent (s : Stream) : Except Error Stream :=
  match s.curr_byte with
  | .error _ => .ok s
  | .ok c =>
    if c = 'e' ∨ c = 'E' then
      match s.next_byte with
      | .error e => .error e
      | .ok c2 =>
        if c2 ≠ 'm' ∧ c2 ≠ 'x' then
          let s1 := s.advance 1
          match s1.curr_byte with
          | .error e => .error e
          | .ok c3 =>
            if c3 = '+' ∨ c3 = '-' then .ok ((s1.advance 1).skip_digits)
            else if isDigit c3 then .ok s1.skip_digits
            else .error (.InvalidNumber 0)
        else .ok s
    else .ok s

/-- `number.rs` lines 52-108: `Stream::parse_number_impl` — scan the
lexeme, slice it back, convert with the standard text-to-double
routine, and reject a failed conversion or a non-finite value. -/
def parse_number_impl (s : Stream) : Except Error (ℚ × Stream) :=
  let start := s.pos
  match s.scanSignAndInt with
  | .error e => .error e
  | .ok s1 =>
    let s2 := s1.scanFraction
    match s2.scanExponent with
    | .error e => .error e
    | .ok s3 =>
      match rustParseF64 (s3.slice_back start) with
      | some n => if isFiniteF64 n then .ok (n, s3) else .error (.InvalidNumber 0)
      | none => .error (.InvalidNumber 0)

/-- `number.rs` lines 38-50: `Stream::parse_number` — skip leading
whitespace, record `start`, fail `InvalidNumber` at `start` if at end,
else delegate to the scan and re-report any failure at `start`. -/
def parse_number (s0 : Stream) : Except Error (ℚ × Stream) :=
  let s := s0.skip_spaces
  let start := s.pos
  if s.at_end then .error (.InvalidNumber (s.calc_char_pos_at start))
  else
    match s.parse_number_impl with
    | .ok r => .ok r
    | .error _ => .error (.InvalidNumber (s.calc_char_pos_at start))

/-- Modelled from the spec (§4.3): `Stream::parse_list_separator` —
skip whitespace, at most one comma, and whitespace again; never
fails. -/
def parse_list_separator (s : Stream) : Stream :=
  let s1 := s.skip_spaces
  let s2 := match s1.curr_byte with
    | .ok c => if c = ',' then s1.advance 1 else s1
    | .error _ => s1
  s2.skip_spaces

/-- `number.rs` lines 111-120: `Stream::parse_list_number` — error
`UnexpectedEndOfStream` at end of buffer, else a number followed by the
list separator. -/
def parse_list_number (s : Stream) : Except Error (ℚ × Stream) :=
  if s.at_end then .error .UnexpectedEndOfStream
  else
    match s.parse_number with
    | .error e => .error e
    | .ok (n, s1) =>
      let s2 := s1.skip_spaces
      let s3 := s2.parse_list_separator
      .ok (n, s3)

end Stream

namespace NumberListParser

/-- `number.rs` lines 151-162: `<NumberListParser as Iterator>::next` —
nothing at end of buffer; otherwise one `parse_list_number` result, the
cursor being forced to the end of the buffer on an error.  (The stream
state a failed scan leaves behind is observable only through
`jump_to_end`, which overwrites it, so the model returns the
post-success stream inside `Ok` and rebuilds the error case from the
pre-call stream.) -/
def next (s : Stream) : Option (Except Error ℚ × Stream) :=
  if s.at_end then none
  else
    match s.parse_list_number with
    | .ok (n, s') => some (.ok n, s')
    | .error e => some (.error e, s.jump_to_end)

/-- The list of items produced by repeatedly calling `next`, cut off
after `fuel` steps. -/
def itemsAux : Nat → Stream → List (Except Error ℚ)
  | 0, _ => []
  | fuel + 1, s =>
    match next s with
    | none => []
    | some (r, s') => r :: itemsAux fuel s'

end NumberListParser

/-- `number.rs` lines 15-24: `<Number as FromStr>::from_str` — parse
one number, then require only whitespace up to the end of the input;
any other remainder is `UnexpectedData` at the cursor. -/
def Number.from_str (text : List Char) : Except Error ℚ :=
  let s := Stream.mk text 0
  match s.parse_number with
  | .error e => .error e
  | .ok (n, s1) =>
    let s2 := s1.skip_spaces
    if ¬ s2.at_end then .error (.UnexpectedData s2.calc_char_pos)
    else .ok n

end Svgtypes

namespace Svgtypes

/-! ## Supporting lemmas -/

lemma countLeading_le (p : Char → Bool) (l : List Char) :
    countLeading p l ≤ l.length := by
  induction l with
  | nil => simp [countLeading]
  | cons c t ih =>
    show (if p c then countLeading p t + 1 else 0) ≤ (c :: t).length
    by_cases hc : p c
    · rw [if_pos hc, List.length_cons]
      omega
    · rw [if_neg hc, List.length_cons]
      omega

lemma countLeading_cons_neg {p : Char → Bool} {c : Char} (t : List Char)
    (h : p c = false) : countLeading p (c :: t) = 0 := by
  simp [countLeading, h]

lemma countLeading_eq_length_iff (p : Char → Bool) (l : List Char) :
    countLeading p l = l.length ↔ l.all p = true := by
  induction l with
  | nil => simp [countLeading]
  | cons c t ih =>
    simp only [countLeading, List.all_cons, List.length_cons, Bool.and_eq_true]
    constructor
    · intro h
      by_cases hc : p c
      · simp only [hc, if_true] at h
        exact ⟨hc, ih.mp (by omega)⟩
      · rw [if_neg hc] at h
        exact absurd h (by omega)
    · rintro ⟨hc, ht⟩
      simp [hc, ih.mpr ht]

lemma countLeading_all {p : Char → Bool} {l : List Char} (h : l.all p = true) :
    countLeading p l = l.length :=
  (countLeading_eq_length_iff p l).mpr h

lemma countLeading_append_all {p : Char → Bool} {xs : List Char}
    (ys : List Char) (h : xs.all p = true) :
    countLeading p (xs ++ ys) = xs.length + countLeading p ys := by
  induction xs with
  | nil => simp
  | cons c t ih =>
    simp only [List.all_cons, Bool.and_eq_true] at h
    rw [List.cons_append]
    show (if p c then countLeading p (t ++ ys) + 1 else 0)
        = (c :: t).length + countLeading p ys
    rw [if_pos h.1, ih h.2, List.length_cons]
    omega

lemma take_countLeading_all (p : Char → Bool) (l : List Char) :
    (l.take (countLeading p l)).all p = true := by
  induction l with
  | nil => simp
  | cons c t ih =>
    show ((c :: t).take (if p c then countLeading p t + 1 else 0)).all p = true
    by_cases hc : p c
    · rw [if_pos hc, List.take_succ_cons, List.all_cons, hc, ih]
      rfl
    · rw [if_neg hc]
      simp

lemma drop_countLeading (p : Char → Bool) (l : List Char)
    (h : countLeading p l < l.length) :
    ∃ c rest, l.drop (countLeading p l) = c :: rest ∧ p c = false := by
  induction l with
  | nil => simp at h
  | cons c t ih =>
    by_cases hc : p c
    · simp only [countLeading, hc, if_true, List.length_cons] at h ⊢
      simp only [List.drop_succ_cons]
      exact ih (by omega)
    · simp only [Bool.not_eq_true] at hc
      refine ⟨c, t, ?_, hc⟩
      rw [countLeading_cons_neg t hc, List.drop_zero]

lemma isSpace_eq_false_of_isDigit {c : Char} (h : isDigit c = true) :
    isSpace c = false := by
  simp only [isDigit, Bool.and_eq_true, decide_eq_true_eq] at h
  simp only [isSpace, Bool.or_eq_false_iff, beq_eq_false_iff_ne, ne_eq]
  refine ⟨⟨⟨fun hc => ?_, fun hc => ?_⟩, fun hc => ?_⟩, fun hc => ?_⟩ <;>
    (subst hc; revert h; decide)

lemma isSign_eq_false_of_isDigit {c : Char} (h : isDigit c = true) :
    isSign c = false := by
  simp only [isDigit, Bool.and_eq_true, decide_eq_true_eq] at h
  simp only [isSign, Bool.or_eq_false_iff, beq_eq_false_iff_ne, ne_eq]
  refine ⟨fun hc => ?_, fun hc => ?_⟩ <;> (subst hc; revert h; decide)

lemma readSign_not_sign {c : Char} (t : List Char) (h : isSign c = false) :
    readSign (c :: t) = (1, c :: t) := by
  simp only [isSign, Bool.or_eq_false_iff, beq_eq_false_iff_ne, ne_eq] at h
  simp [readSign, h.1, h.2]

namespace Stream

/-- The cursor invariant (spec §3): the position stays inside
`[0, length]`. -/
def Inv (s : Stream) : Prop := s.pos ≤ s.text.length

lemma inv_skip_spaces {s : Stream} (h : Inv s) : Inv s.skip_spaces := by
  have hle := countLeading_le isSpace (s.text.drop s.pos)
  rw [List.length_drop] at hle
  simp only [Inv, skip_spaces] at h ⊢
  omega

lemma inv_skip_digits {s : Stream} (h : Inv s) : Inv s.skip_digits := by
  have hle := countLeading_le isDigit (s.text.drop s.pos)
  rw [List.length_drop] at hle
  simp only [Inv, skip_digits] at h ⊢
  omega

lemma pos_lt_of_curr_byte_ok {s : Stream} {c : Char}
    (h : s.curr_byte = .ok c) : s.pos < s.text.length := by
  unfold curr_byte at h
  rcases hd : s.text.drop s.pos with _ | ⟨d, rest⟩
  · rw [hd] at h
    cases h
  · have := congrArg List.length hd
    rw [List.length_drop] at this
    simp only [List.length_cons] at this
    omega

lemma intMatch_ok {s s1 : Stream} {c : Char}
    (h : s.intMatch c = .ok s1) (hs : Inv s) : s1.text = s.text ∧ Inv s1 := by
  unfold intMatch at h
  split at h
  · cases h
    exact ⟨rfl, inv_skip_digits hs⟩
  · split at h
    · cases h
      exact ⟨rfl, hs⟩
    · cases h

lemma inv_advance_one {s : Stream} {c : Char}
    (h : s.curr_byte = .ok c) : Inv (s.advance 1) := by
  have := pos_lt_of_curr_byte_ok h
  simp only [Inv, advance]
  omega

lemma inv_of_curr_byte_ok {s : Stream} {c : Char}
    (h : s.curr_byte = .ok c) : Inv s :=
  Nat.le_of_lt (pos_lt_of_curr_byte_ok h)

lemma scanSignAndInt_ok {s s1 : Stream}
    (h : s.scanSignAndInt = .ok s1) (hs : Inv s) : s1.text = s.text ∧ Inv s1 := by
  unfold scanSignAndInt at h
  simp only [] at h
  split at h
  · cases h
  · next c hc =>
    split at h
    · split at h
      · cases h
      · next c1 hc1 =>
        have := intMatch_ok h (inv_advance_one hc)
        exact ⟨this.1, this.2⟩
    · exact intMatch_ok h hs

lemma scanFraction_spec (s : Stream) (hs : Inv s) :
    s.scanFraction.text = s.text ∧ Inv s.scanFraction := by
  unfold scanFraction
  split
  · next c hc =>
    split
    · exact ⟨rfl, inv_skip_digits (inv_advance_one hc)⟩
    · exact ⟨rfl, hs⟩
  · exact ⟨rfl, hs⟩

lemma scanExponent_ok {s s1 : Stream}
    (h : s.scanExponent = .ok s1) (hs : Inv s) : s1.text = s.text ∧ Inv s1 := by
  unfold scanExponent at h
  simp only [] at h
  split at h
  · cases h
    exact ⟨rfl, hs⟩
  · next c hc =>
    split at h
    · split at h
      · cases h
      · split at h
        · split at h
          · cases h
          · next c3 hc3 =>
            split at h
            · cases h
              refine ⟨rfl, inv_skip_digits ?_⟩
              have := pos_lt_of_curr_byte_ok hc3
              simp only [advance] at this ⊢
              simp only [Inv, skip_digits, advance]
              have hle := countLeading_le isDigit (s.text.drop (s.pos + 1 + 1))
              rw [List.length_drop] at hle
              omega
            · split at h
              · cases h
                exact ⟨rfl, inv_skip_digits (inv_of_curr_byte_ok hc3)⟩
              · cases h
        · cases h
          exact ⟨rfl, hs⟩
    · cases h
      exact ⟨rfl, hs⟩

lemma parse_number_impl_ok {s s1 : Stream} {n : ℚ}
    (h : s.parse_number_impl = .ok (n, s1)) (hs : Inv s) :
    s1.text = s.text ∧ Inv s1 := by
  unfold parse_number_impl at h
  simp only [] at h
  split at h
  · cases h
  · next sa ha =>
    split at h
    · cases h
    · next sb hb =>
      have h1 := scanSignAndInt_ok ha hs
      have h2 := scanFraction_spec sa h1.2
      have h3 := scanExponent_ok hb h2.2
      split at h
      · split at h
        · cases h
          refine ⟨?_, h3.2⟩
          rw [h3.1, h2.1, h1.1]
        · cases h
      · cases h

lemma parse_number_impl_ok_finite {s s1 : Stream} {n : ℚ}
    (h : s.parse_number_impl = .ok (n, s1)) : isFiniteF64 n = true := by
  unfold parse_number_impl at h
  simp only [] at h
  split at h
  · cases h
  · split at h
    · cases h
    · split at h
      · next hf =>
        split at h
        · cases h
          assumption
        · cases h
      · cases h

lemma parse_number_ok {s s1 : Stream} {n : ℚ}
    (h : s.parse_number = .ok (n, s1)) (hs : Inv s) :
    s1.text = s.text ∧ Inv s1 := by
  unfold parse_number at h
  simp only [] at h
  split at h
  · cases h
  · split at h
    · next r hr =>
      cases h
      have h2 := parse_number_impl_ok hr (inv_skip_spaces hs)
      exact ⟨h2.1, h2.2⟩
    · cases h

lemma parse_number_error {s : Stream} {e : Error}
    (h : s.parse_number = .error e) :
    e = .InvalidNumber (s.skip_spaces.pos + 1) := by
  unfold parse_number at h
  simp only [] at h
  split at h
  · cases h
    rfl
  · split at h
    · cases h
    · cases h
      rfl

end Stream

/-- Whether a produced item is a success. -/
def isOkItem : Except Error ℚ → Bool
  | .ok _ => true
  | .error _ => false

namespace NumberListParser

lemma next_of_at_end {s : Stream} (h : s.at_end = true) : next s = none := by
  simp [next, h]

lemma at_end_jump_to_end (s : Stream) : s.jump_to_end.at_end = true := by
  simp [Stream.at_end, Stream.jump_to_end]

lemma next_error_shape {s s' : Stream} {e : Error}
    (h : next s = some (.error e, s')) : s' = s.jump_to_end := by
  unfold next at h
  split at h
  · cases h
  · split at h
    · cases h
    · cases h
      rfl

lemma itemsAux_of_next_none {s : Stream} (h : next s = none) (fuel : Nat) :
    itemsAux fuel s = [] := by
  cases fuel with
  | zero => rfl
  | succ fuel =>
    show (match next s with
      | none => []
      | some (r, s') => r :: itemsAux fuel s') = []
    rw [h]

lemma itemsAux_dropLast (fuel : Nat) (s : Stream) :
    ((itemsAux fuel s).dropLast).all isOkItem = true := by
  induction fuel generalizing s with
  | zero => rfl
  | succ fuel ih =>
    show ((match next s with
      | none => []
      | some (r, s') => r :: itemsAux fuel s').dropLast).all isOkItem = true
    cases hnext : next s with
    | none => rfl
    | some rs =>
      obtain ⟨r, s'⟩ := rs
      simp only []
      cases r with
      | ok n =>
        cases h2 : itemsAux fuel s' with
        | nil => rfl
        | cons b t =>
          have hall := ih s'
          rw [h2] at hall
          simp only [h2, List.dropLast_cons₂, List.all_cons, Bool.and_eq_true]
          exact ⟨rfl, hall⟩
      | error e =>
        have hs' : s' = s.jump_to_end := next_error_shape hnext
        subst hs'
        rw [itemsAux_of_next_none (next_of_at_end (at_end_jump_to_end s)) fuel]
        rfl

end NumberListParser


/-! ## Claim theorems -/

/-- C1 (counterexample): the claim predicts that the error position of
`parse_number` is captured BEFORE the leading-whitespace skip — for the
input `" q"` that would be position 1 (the leading space).  The code
captures `start` only after `skip_spaces()`, so it reports position 2. -/
theorem claim_c1_cex :
    Stream.parse_number ⟨[' ', 'q'], 0⟩ = .error (.InvalidNumber 2) ∧
    (Error.InvalidNumber 2) ≠
      .InvalidNumber ((⟨[' ', 'q'], 0⟩ : Stream).calc_char_pos_at
        (⟨[' ', 'q'], 0⟩ : Stream).pos) := by
  decide

/-- C1 (amended): every failure of `parse_number` is an `InvalidNumber`
carrying the 1-based character position captured AFTER the
leading-whitespace skip (the first non-whitespace character, or the end
of input), and this same anchor is reported no matter how far the
internal scan progressed before failing. -/
theorem claim_c1 (s : Stream) (e : Error)
    (h : s.parse_number = .error e) :
    e = .InvalidNumber (s.skip_spaces.calc_char_pos_at s.skip_spaces.pos) :=
  Stream.parse_number_error h

/-- C1 witness: the amended theorem applied to the input `" q"`. -/
theorem claim_c1_witness :
    (Error.InvalidNumber 2) =
      .InvalidNumber ((⟨[' ', 'q'], 0⟩ : Stream).skip_spaces.calc_char_pos_at
        (⟨[' ', 'q'], 0⟩ : Stream).skip_spaces.pos) :=
  claim_c1 ⟨[' ', 'q'], 0⟩ (.InvalidNumber 2) (by decide)

/-- C2: over any input, every item of the produced sequence except
possibly the last is a success (so at most one `Err`, always final),
and once `next` has yielded an error, every subsequent call yields
nothing. -/
theorem claim_c2 :
    (∀ (cs : List Char) (fuel : Nat),
      ((NumberListParser.itemsAux fuel ⟨cs, 0⟩).dropLast).all isOkItem = true) ∧
    (∀ (s s' : Stream) (e : Error),
      NumberListParser.next s = some (.error e, s') →
      NumberListParser.next s' = none ∧
      ∀ fuel, NumberListParser.itemsAux fuel s' = []) := by
  constructor
  · intro cs fuel
    exact NumberListParser.itemsAux_dropLast fuel ⟨cs, 0⟩
  · intro s s' e h
    rw [NumberListParser.next_error_shape h]
    refine ⟨NumberListParser.next_of_at_end
      (NumberListParser.at_end_jump_to_end s), fun fuel => ?_⟩
    exact NumberListParser.itemsAux_of_next_none
      (NumberListParser.next_of_at_end (NumberListParser.at_end_jump_to_end s)) fuel

/-- C2 witness: the second conjunct applied to the input `"q"`, whose
first item is the error `InvalidNumber 1`. -/
theorem claim_c2_witness :
    NumberListParser.next ((⟨['q'], 0⟩ : Stream).jump_to_end) = none ∧
    ∀ fuel, NumberListParser.itemsAux fuel ((⟨['q'], 0⟩ : Stream).jump_to_end) = [] :=
  claim_c2.2 ⟨['q'], 0⟩ ((⟨['q'], 0⟩ : Stream).jump_to_end)
    (.InvalidNumber 1) (by decide)

/-- C6: `parse_number` on `"0."` returns `Ok(0.0)`, while on the lone
dot `"."` it returns `InvalidNumber` at position 1. -/
theorem claim_c6 :
    Stream.parse_number ⟨['0', '.'], 0⟩ = .ok (0, ⟨['0', '.'], 2⟩) ∧
    Stream.parse_number ⟨['.'], 0⟩ = .error (.InvalidNumber 1) := by
  decide

/-- C7: every error of `parse_number` is an `InvalidNumber` — never
`UnexpectedEndOfStream` or `UnexpectedData` — even when the scan runs
out of bytes mid-lexeme, as on `"-"`, `"+"` and `"1e"`. -/
theorem claim_c7 :
    (∀ (s : Stream) (e : Error), s.parse_number = .error e →
      ∃ p, e = .InvalidNumber p) ∧
    Stream.parse_number ⟨['-'], 0⟩ = .error (.InvalidNumber 1) ∧
    Stream.parse_number ⟨['+'], 0⟩ = .error (.InvalidNumber 1) ∧
    Stream.parse_number ⟨['1', 'e'], 0⟩ = .error (.InvalidNumber 1) :=
  ⟨fun _ e h => ⟨_, Stream.parse_number_error h⟩, by decide, by decide, by decide⟩

/-- C7 witness: the universal part applied to the input `"-"`. -/
theorem claim_c7_witness :
    ∃ p, (Error.InvalidNumber 1) = .InvalidNumber p :=
  claim_c7.1 ⟨['-'], 0⟩ (.InvalidNumber 1) (by decide)

/-- C8: the list parser over `"10, 20 -50"` yields `Ok(10.0)`,
`Ok(20.0)`, `Ok(-50.0)`, and then yields nothing on every subsequent
call. -/
theorem claim_c8 :
    NumberListParser.next ⟨['1','0',',',' ','2','0',' ','-','5','0'], 0⟩ =
      some (.ok 10, ⟨['1','0',',',' ','2','0',' ','-','5','0'], 4⟩) ∧
    NumberListParser.next ⟨['1','0',',',' ','2','0',' ','-','5','0'], 4⟩ =
      some (.ok 20, ⟨['1','0',',',' ','2','0',' ','-','5','0'], 7⟩) ∧
    NumberListParser.next ⟨['1','0',',',' ','2','0',' ','-','5','0'], 7⟩ =
      some (.ok (-50), ⟨['1','0',',',' ','2','0',' ','-','5','0'], 10⟩) ∧
    ∀ fuel, NumberListParser.itemsAux fuel
      ⟨['1','0',',',' ','2','0',' ','-','5','0'], 10⟩ = [] := by
  refine ⟨by decide, by decide, by decide, fun fuel => ?_⟩
  exact NumberListParser.itemsAux_of_next_none
    (NumberListParser.next_of_at_end (by decide)) fuel

/-- C9: at end of buffer `parse_list_number` fails with
`UnexpectedEndOfStream` (not `InvalidNumber`), and this branch is
unreachable through `NumberListParser::next`, which checks `at_end`
first and terminates instead. -/
theorem claim_c9 (s : Stream) (h : s.at_end = true) :
    s.parse_list_number = .error .UnexpectedEndOfStream ∧
    NumberListParser.next s = none := by
  refine ⟨?_, NumberListParser.next_of_at_end h⟩
  unfold Stream.parse_list_number
  rw [if_pos h]

/-- C9 witness: the theorem applied to the empty input. -/
theorem claim_c9_witness :
    Stream.parse_list_number ⟨[], 0⟩ = .error .UnexpectedEndOfStream ∧
    NumberListParser.next ⟨[], 0⟩ = none :=
  claim_c9 ⟨[], 0⟩ (by decide)

/-- C10: on a non-empty all-whitespace input the list parser yields
exactly one item, the error `InvalidNumber` (at the position one past
the end), and then terminates: the at-end check precedes the whitespace
skip done inside `parse_number`, so the first call does produce an
item. -/
theorem claim_c10 (cs : List Char) (h1 : cs ≠ []) (h2 : cs.all isSpace = true) :
    NumberListParser.next ⟨cs, 0⟩ =
      some (.error (.InvalidNumber (cs.length + 1)), ⟨cs, cs.length⟩) ∧
    NumberListParser.next ⟨cs, cs.length⟩ = none := by
  have hlen : 0 < cs.length := List.length_pos.mpr h1
  have hcl : countLeading isSpace cs = cs.length := countLeading_all h2
  have hne : (⟨cs, 0⟩ : Stream).at_end = false := by
    simp only [Stream.at_end, decide_eq_false_iff_not]
    omega
  have hss : (⟨cs, 0⟩ : Stream).skip_spaces = ⟨cs, cs.length⟩ := by
    simp [Stream.skip_spaces, hcl]
  have hpn : Stream.parse_number ⟨cs, 0⟩ = .error (.InvalidNumber (cs.length + 1)) := by
    unfold Stream.parse_number
    simp only []
    rw [hss]
    rw [if_pos (by simp [Stream.at_end])]
    rfl
  have hpl : Stream.parse_list_number ⟨cs, 0⟩ =
      .error (.InvalidNumber (cs.length + 1)) := by
    unfold Stream.parse_list_number
    rw [if_neg (by simp [hne]), hpn]
  constructor
  · unfold NumberListParser.next
    rw [if_neg (by simp [hne]), hpl]
    rfl
  · exact NumberListParser.next_of_at_end (by simp [Stream.at_end])

/-- C10 witness: the theorem applied to the input `" "`. -/
theorem claim_c10_witness :
    NumberListParser.next ⟨[' '], 0⟩ =
      some (.error (.InvalidNumber 2), ⟨[' '], 1⟩) ∧
    NumberListParser.next ⟨[' '], 1⟩ = none :=
  claim_c10 [' '] (by decide) (by decide)


/-- The 17-character input `"99999999e99999999"` of the spec's overflow
example. -/
def bigNines : List Char :=
  ['9','9','9','9','9','9','9','9','e','9','9','9','9','9','9','9','9']

lemma two_pow_le_big : 2 ^ 1024 * 1 ≤ 99999999 * 10 ^ 99999999 := by
  have s1 : (2 : Nat) ^ 1024 * 1 = 2 ^ 1024 := Nat.mul_one _
  have s2 : (2 : Nat) ^ 1024 ≤ 10 ^ 1024 := Nat.pow_le_pow_left (by omega) 1024
  have s3 : (10 : Nat) ^ 1024 ≤ 10 ^ 99999999 :=
    Nat.pow_le_pow_right (by omega) (by omega)
  have s4 : (10 : Nat) ^ 99999999 = 1 * 10 ^ 99999999 := (Nat.one_mul _).symm
  have s5 : (1 : Nat) * 10 ^ 99999999 ≤ 99999999 * 10 ^ 99999999 :=
    Nat.mul_le_mul (by omega) (Nat.le_refl _)
  exact le_trans (le_of_eq s1) (le_trans s2 (le_trans s3 (le_trans (le_of_eq s4) s5)))

set_option exponentiation.threshold 2 in
lemma big_cast_eq :
    ((99999999 * 10 ^ 99999999 : Nat) : Int) = 99999999 * 10 ^ 99999999 := by
  push_cast
  rfl

set_option exponentiation.threshold 2 in
lemma big_natAbs_eq :
    (99999999 * 10 ^ 99999999 : Int).natAbs = 99999999 * 10 ^ 99999999 := by
  rw [← big_cast_eq, Int.natAbs_ofNat]

set_option exponentiation.threshold 2 in
lemma big_not_finite : isFiniteF64 (decValue 99999999 99999999) = false := by
  have h1 : decValue 99999999 99999999 = ((99999999 * 10 ^ 99999999 : Int) : ℚ) := by
    unfold decValue
    rw [if_pos (by decide : (0 : Int) ≤ 99999999)]
    rw [show (99999999 : Int).toNat = 99999999 from rfl]
  rw [h1]
  unfold isFiniteF64
  rw [decide_eq_false_iff_not]
  rw [Rat.num_intCast, Rat.den_intCast]
  rw [big_natAbs_eq, Nat.not_lt]
  exact two_pow_le_big

/-- C5: every `Ok` value of `parse_number` passed the finiteness guard,
and the overflowing lexeme `"99999999e99999999"`, whose exact decimal
value lies outside the binary64 range, is rejected with `InvalidNumber`
at position 1 rather than returned as a non-finite value. -/
theorem claim_c5 :
    (∀ (s s1 : Stream) (n : ℚ), s.parse_number = .ok (n, s1) →
      isFiniteF64 n = true) ∧
    Stream.parse_number ⟨bigNines, 0⟩ = .error (.InvalidNumber 1) := by
  constructor
  · intro s s1 n h
    unfold Stream.parse_number at h
    simp only [] at h
    split at h
    · cases h
    · split at h
      · next r hr =>
        cases h
        exact Stream.parse_number_impl_ok_finite hr
      · cases h
  · have h3 : (⟨bigNines, 0⟩ : Stream).scanSignAndInt = .ok ⟨bigNines, 8⟩ := by
      decide
    have h4 : (⟨bigNines, 8⟩ : Stream).scanFraction = ⟨bigNines, 8⟩ := by decide
    have h5 : (⟨bigNines, 8⟩ : Stream).scanExponent = .ok ⟨bigNines, 17⟩ := by
      decide
    have h6 : (⟨bigNines, 17⟩ : Stream).slice_back 0 = bigNines := by decide
    have hval : ∃ m e, rustParseF64 bigNines = some (decValue m e) ∧
        m = 99999999 ∧ e = 99999999 := by
      refine ⟨_, _, rfl, by decide, by decide⟩
    obtain ⟨m0, e0, h7, hm0, he0⟩ := hval
    subst hm0
    subst he0
    have h9 : (⟨bigNines, 0⟩ : Stream).parse_number_impl =
        .error (.InvalidNumber 0) := by
      unfold Stream.parse_number_impl
      simp only []
      rw [h3]
      simp only []
      rw [h4, h5]
      simp only []
      rw [h6, h7]
      simp only []
      rw [big_not_finite]
      rfl
    have hss : (⟨bigNines, 0⟩ : Stream).skip_spaces = ⟨bigNines, 0⟩ := by decide
    unfold Stream.parse_number
    simp only []
    rw [hss]
    rw [if_neg (by decide : ¬ (⟨bigNines, 0⟩ : Stream).at_end = true)]
    rw [h9]
    rfl

/-- C5 witness: the universal part applied to the input `"1"`. -/
theorem claim_c5_witness : isFiniteF64 1 = true :=
  claim_c5.1 ⟨['1'], 0⟩ ⟨['1'], 1⟩ 1 (by decide)


lemma skip_spaces_at_end_iff {text : List Char} {P : Nat} (hP : P ≤ text.length) :
    ((⟨text, P⟩ : Stream).skip_spaces.at_end = true) ↔
    (text.drop P).all isSpace = true := by
  unfold Stream.skip_spaces Stream.at_end
  simp only [decide_eq_true_eq]
  constructor
  · intro hle
    have hcl := countLeading_le isSpace (text.drop P)
    rw [List.length_drop] at hcl
    have heq : countLeading isSpace (text.drop P) = (text.drop P).length := by
      rw [List.length_drop]
      omega
    exact (countLeading_eq_length_iff _ _).mp heq
  · intro hall
    rw [countLeading_all hall, List.length_drop]
    omega

lemma from_str_of_parse {text : List Char} {n : ℚ} {s1 : Stream}
    (h : Stream.parse_number ⟨text, 0⟩ = .ok (n, s1)) :
    Number.from_str text =
      if s1.skip_spaces.at_end = true then .ok n
      else .error (.UnexpectedData (s1.skip_spaces.pos + 1)) := by
  unfold Number.from_str
  simp only []
  rw [h]
  simp only []
  by_cases hend : s1.skip_spaces.at_end = true
  · rw [if_neg (fun hc => hc hend), if_pos hend]
  · rw [if_pos hend, if_neg hend]
    rfl

/-- C4: `Number::from_str` succeeds exactly when, after the leading
whitespace skipped by `parse_number`, the input is one number followed
only by whitespace; when a scanned number is followed by a
non-whitespace remainder, it fails with `UnexpectedData` at the 1-based
character position of the first offending (non-whitespace) character. -/
theorem claim_c4 :
    (∀ text : List Char,
      (∃ n, Number.from_str text = .ok n) ↔
      (∃ n s1, Stream.parse_number ⟨text, 0⟩ = .ok (n, s1) ∧
        (text.drop s1.pos).all isSpace = true)) ∧
    (∀ (text : List Char) (n : ℚ) (s1 : Stream),
      Stream.parse_number ⟨text, 0⟩ = .ok (n, s1) →
      (text.drop s1.pos).all isSpace = false →
      ∃ k, Number.from_str text = .error (.UnexpectedData (k + 1)) ∧
        s1.pos ≤ k ∧
        ((text.drop s1.pos).take (k - s1.pos)).all isSpace = true ∧
        ∃ c rest, text.drop k = c :: rest ∧ isSpace c = false) := by
  constructor
  · intro text
    constructor
    · rintro ⟨n, hok⟩
      cases hpn : Stream.parse_number ⟨text, 0⟩ with
      | error e =>
        unfold Number.from_str at hok
        simp only [] at hok
        rw [hpn] at hok
        cases hok
      | ok r =>
        obtain ⟨n1, s1⟩ := r
        rw [from_str_of_parse hpn] at hok
        have hinv := Stream.parse_number_ok hpn (Nat.zero_le _)
        obtain ⟨t1, P⟩ := s1
        have ht : text = t1 := hinv.1.symm
        subst ht
        have hP : P ≤ text.length := hinv.2
        by_cases hend : ((⟨text, P⟩ : Stream).skip_spaces).at_end = true
        · exact ⟨n1, ⟨text, P⟩, rfl, (skip_spaces_at_end_iff hP).mp hend⟩
        · rw [if_neg hend] at hok
          cases hok
    · rintro ⟨n, s1, hpn, hall⟩
      have hinv := Stream.parse_number_ok hpn (Nat.zero_le _)
      obtain ⟨t1, P⟩ := s1
      have ht : text = t1 := hinv.1.symm
      subst ht
      have hP : P ≤ text.length := hinv.2
      refine ⟨n, ?_⟩
      rw [from_str_of_parse hpn, if_pos ((skip_spaces_at_end_iff hP).mpr hall)]
  · intro text n s1 hpn hall
    have hinv := Stream.parse_number_ok hpn (Nat.zero_le _)
    obtain ⟨t1, P⟩ := s1
    have ht : text = t1 := hinv.1.symm
    subst ht
    have hP : P ≤ text.length := hinv.2
    have hend : ¬ ((⟨text, P⟩ : Stream).skip_spaces).at_end = true := by
      rw [skip_spaces_at_end_iff hP]
      simp [hall]
    have hlt : countLeading isSpace (text.drop P) < (text.drop P).length := by
      have hle := countLeading_le isSpace (text.drop P)
      rcases Nat.lt_or_ge (countLeading isSpace (text.drop P))
        ((text.drop P).length) with hc | hc
      · exact hc
      · exfalso
        have heq : countLeading isSpace (text.drop P) = (text.drop P).length :=
          Nat.le_antisymm hle hc
        rw [(countLeading_eq_length_iff _ _).mp heq] at hall
        cases hall
    refine ⟨P + countLeading isSpace (text.drop P), ?_, ?_, ?_, ?_⟩
    · rw [from_str_of_parse hpn, if_neg hend]
      rfl
    · exact Nat.le_add_right _ _
    · show ((text.drop P).take
        (P + countLeading isSpace (text.drop P) - P)).all isSpace = true
      have harith : P + countLeading isSpace (text.drop P) - P =
          countLeading isSpace (text.drop P) := by omega
      rw [harith]
      exact take_countLeading_all _ _
    · obtain ⟨c, rest, hdrop, hc⟩ := drop_countLeading isSpace (text.drop P) hlt
      refine ⟨c, rest, ?_, hc⟩
      rw [← hdrop]
      exact (List.drop_drop _ _ _).symm

/-- C4 witness: the trailing-data part applied to the input `"1 x"`. -/
theorem claim_c4_witness :
    ∃ k, Number.from_str ['1', ' ', 'x'] = .error (.UnexpectedData (k + 1)) ∧
      (⟨['1', ' ', 'x'], 1⟩ : Stream).pos ≤ k ∧
      ((['1', ' ', 'x'].drop (⟨['1', ' ', 'x'], 1⟩ : Stream).pos).take
        (k - (⟨['1', ' ', 'x'], 1⟩ : Stream).pos)).all isSpace = true ∧
      ∃ c rest, ['1', ' ', 'x'].drop k = c :: rest ∧ isSpace c = false :=
  claim_c4.2 ['1', ' ', 'x'] 1 ⟨['1', ' ', 'x'], 1⟩ (by decide) (by decide)


/-- First character, if any, is not a unit-suffix marker `m`/`x`. -/
def headNotMX : List Char → Bool
  | [] => true
  | c :: _ => !(c == 'm' || c == 'x')

/-- After the exponent marker, the optional sign is not followed by a
digit; with no sign present, the first character itself is not a
digit. -/
def noDigitAfterSign : List Char → Bool
  | [] => true
  | c :: t =>
    if isSign c then
      match t with
      | [] => true
      | d :: _ => !(isDigit d)
    else !(isDigit c)

lemma isSign_iff {c : Char} : isSign c = true ↔ (c = '+' ∨ c = '-') := by
  simp [isSign]

namespace Stream

lemma advance_one_curr (s : Stream) : (s.advance 1).curr_byte = s.next_byte := rfl

lemma curr_byte_eq_of_drop {s : Stream} {c : Char} {rest : List Char}
    (h : s.text.drop s.pos = c :: rest) : s.curr_byte = .ok c := by
  unfold curr_byte
  rw [h]

lemma next_byte_eq_of_drop {s : Stream} {c : Char} {rest : List Char}
    (h : s.text.drop (s.pos + 1) = c :: rest) : s.next_byte = .ok c := by
  unfold next_byte
  rw [h]

lemma next_byte_eof_of_drop {s : Stream}
    (h : s.text.drop (s.pos + 1) = []) :
    s.next_byte = .error .UnexpectedEndOfStream := by
  unfold next_byte
  rw [h]

lemma scanExponent_suffix {s : Stream} {c c2 : Char}
    (hc : s.curr_byte = .ok c) (he : c = 'e' ∨ c = 'E')
    (hn : s.next_byte = .ok c2) (hmx : c2 = 'm' ∨ c2 = 'x') :
    s.scanExponent = .ok s := by
  have hcon : ¬(c2 ≠ 'm' ∧ c2 ≠ 'x') := by
    rcases hmx with rfl | rfl
    · exact fun hh => hh.1 rfl
    · exact fun hh => hh.2 rfl
  unfold scanExponent
  rw [hc]
  simp only []
  rw [if_pos he, hn]
  simp only []
  rw [if_neg hcon]

lemma scanExponent_consume {s : Stream} {c c2 : Char}
    (hc : s.curr_byte = .ok c) (he : c = 'e' ∨ c = 'E')
    (hn : s.next_byte = .ok c2) (hmx : ¬(c2 = 'm' ∨ c2 = 'x')) :
    s.scanExponent =
      (if c2 = '+' ∨ c2 = '-' then
        .ok ⟨s.text, s.pos + 1 + 1 + countLeading isDigit (s.text.drop (s.pos + 1 + 1))⟩
      else if isDigit c2 then
        .ok ⟨s.text, s.pos + 1 + countLeading isDigit (s.text.drop (s.pos + 1))⟩
      else .error (.InvalidNumber 0)) := by
  push_neg at hmx
  unfold scanExponent
  rw [hc]
  simp only []
  rw [if_pos he, hn]
  simp only []
  rw [if_pos hmx]
  rw [show (s.advance 1).curr_byte = .ok c2 from by rw [advance_one_curr]; exact hn]
  simp only []
  by_cases hsgn : c2 = '+' ∨ c2 = '-'
  · rw [if_pos hsgn, if_pos hsgn]
    rfl
  · rw [if_neg hsgn, if_neg hsgn]
    by_cases hd : isDigit c2
    · rw [if_pos hd, if_pos hd]
      rfl
    · rw [if_neg hd, if_neg hd]

lemma scanExponent_eof {s : Stream} {c : Char}
    (hc : s.curr_byte = .ok c) (he : c = 'e' ∨ c = 'E')
    (hn : s.next_byte = .error .UnexpectedEndOfStream) :
    s.scanExponent = .error .UnexpectedEndOfStream := by
  unfold scanExponent
  rw [hc]
  simp only []
  rw [if_pos he, hn]

lemma scanSignAndInt_digit_start {d : Char} {xs : List Char}
    (hd : isDigit d = true) :
    (⟨d :: xs, 0⟩ : Stream).scanSignAndInt =
      .ok ⟨d :: xs, countLeading isDigit (d :: xs)⟩ := by
  unfold scanSignAndInt
  rw [show (⟨d :: xs, 0⟩ : Stream).curr_byte = .ok d from rfl]
  simp only []
  rw [if_neg (by simp [isSign_eq_false_of_isDigit hd])]
  unfold intMatch
  rw [if_pos hd]
  unfold skip_digits
  simp only [List.drop_zero, Nat.zero_add]

lemma scanFraction_no_dot {s : Stream} {c : Char}
    (hc : s.curr_byte = .ok c) (hne : ¬ c = '.') :
    s.scanFraction = s := by
  unfold scanFraction
  rw [hc]
  simp only []
  rw [if_neg hne]

lemma parse_number_impl_err_assemble {l : List Char} {K : Nat} {e : Error}
    (h1 : (⟨l, 0⟩ : Stream).scanSignAndInt = .ok ⟨l, K⟩)
    (h2 : (⟨l, K⟩ : Stream).scanFraction = ⟨l, K⟩)
    (h3 : (⟨l, K⟩ : Stream).scanExponent = .error e) :
    (⟨l, 0⟩ : Stream).parse_number_impl = .error e := by
  unfold parse_number_impl
  simp only []
  rw [h1]
  simp only []
  rw [h2, h3]

lemma parse_number_impl_none_assemble {l : List Char} {K : Nat} {s3 : Stream}
    (h1 : (⟨l, 0⟩ : Stream).scanSignAndInt = .ok ⟨l, K⟩)
    (h2 : (⟨l, K⟩ : Stream).scanFraction = ⟨l, K⟩)
    (h3 : (⟨l, K⟩ : Stream).scanExponent = .ok s3)
    (h4 : rustParseF64 (s3.text.take s3.pos) = none) :
    (⟨l, 0⟩ : Stream).parse_number_impl = .error (.InvalidNumber 0) := by
  unfold parse_number_impl slice_back
  simp only []
  rw [h1]
  simp only []
  rw [h2, h3]
  simp only [List.drop_zero]
  rw [h4]

lemma parse_number_err_assemble {l : List Char}
    (hss : (⟨l, 0⟩ : Stream).skip_spaces = ⟨l, 0⟩)
    (hend : ¬ (⟨l, 0⟩ : Stream).at_end = true)
    {e : Error} (h : (⟨l, 0⟩ : Stream).parse_number_impl = .error e) :
    Stream.parse_number ⟨l, 0⟩ = .error (.InvalidNumber 1) := by
  unfold parse_number
  simp only []
  rw [hss, if_neg hend, h]
  rfl

end Stream

lemma rustParseF64_digits_e_sign {d c2 : Char} {ds2 : List Char}
    (hd : isDigit d = true) (hds : ds2.all isDigit = true)
    (hsgn : c2 = '+' ∨ c2 = '-') :
    rustParseF64 (d :: (ds2 ++ ['e', c2])) = none := by
  have hcl : countLeading isDigit (d :: (ds2 ++ ['e', c2])) = ds2.length + 1 := by
    show (if isDigit d then countLeading isDigit (ds2 ++ ['e', c2]) + 1 else 0)
        = ds2.length + 1
    rw [if_pos hd, countLeading_append_all _ hds,
      countLeading_cons_neg _ (by decide : isDigit 'e' = false)]
  unfold rustParseF64
  simp only []
  rw [readSign_not_sign _ (isSign_eq_false_of_isDigit hd)]
  simp only []
  rw [hcl, List.take_succ_cons, List.drop_succ_cons, List.take_left, List.drop_left]
  rcases hsgn with rfl | rfl <;> rfl


lemma parse_number_digits_e_fail (ds t : List Char) (hne : ds ≠ [])
    (hdig : ds.all isDigit = true) (hmx : headNotMX t = true)
    (hnd : noDigitAfterSign t = true) :
    Stream.parse_number ⟨ds ++ 'e' :: t, 0⟩ = .error (.InvalidNumber 1) := by
  obtain ⟨d, ds2, rfl⟩ : ∃ d ds2, ds = d :: ds2 := by
    cases ds with
    | nil => exact absurd rfl hne
    | cons a b => exact ⟨a, b, rfl⟩
  rw [List.cons_append]
  simp only [List.all_cons, Bool.and_eq_true] at hdig
  obtain ⟨hd, hds⟩ := hdig
  have hcl : countLeading isDigit (d :: (ds2 ++ 'e' :: t)) = ds2.length + 1 := by
    show (if isDigit d then countLeading isDigit (ds2 ++ 'e' :: t) + 1 else 0)
        = ds2.length + 1
    rw [if_pos hd, countLeading_append_all _ hds,
      countLeading_cons_neg _ (by decide : isDigit 'e' = false)]
  have hdropE : (d :: (ds2 ++ 'e' :: t)).drop (ds2.length + 1) = 'e' :: t := by
    rw [List.drop_succ_cons, List.drop_left]
  have hdropT : (d :: (ds2 ++ 'e' :: t)).drop (ds2.length + 1 + 1) = t := by
    have hdd := List.drop_drop 1 (ds2.length + 1) (d :: (ds2 ++ 'e' :: t))
    rw [← hdd, hdropE]
    rfl
  have h1 : (⟨d :: (ds2 ++ 'e' :: t), 0⟩ : Stream).scanSignAndInt =
      .ok ⟨d :: (ds2 ++ 'e' :: t), ds2.length + 1⟩ := by
    rw [Stream.scanSignAndInt_digit_start hd, hcl]
  have hcurrE : (⟨d :: (ds2 ++ 'e' :: t), ds2.length + 1⟩ : Stream).curr_byte =
      .ok 'e' :=
    Stream.curr_byte_eq_of_drop hdropE
  have h2 : (⟨d :: (ds2 ++ 'e' :: t), ds2.length + 1⟩ : Stream).scanFraction =
      ⟨d :: (ds2 ++ 'e' :: t), ds2.length + 1⟩ :=
    Stream.scanFraction_no_dot hcurrE (by decide)
  have hss : (⟨d :: (ds2 ++ 'e' :: t), 0⟩ : Stream).skip_spaces =
      ⟨d :: (ds2 ++ 'e' :: t), 0⟩ := by
    unfold Stream.skip_spaces
    simp only [List.drop_zero]
    rw [countLeading_cons_neg _ (isSpace_eq_false_of_isDigit hd)]
  have hend : ¬ (⟨d :: (ds2 ++ 'e' :: t), 0⟩ : Stream).at_end = true := by
    simp [Stream.at_end]
  cases t with
  | nil =>
    have hnb : (⟨d :: (ds2 ++ ['e']), ds2.length + 1⟩ : Stream).next_byte =
        .error .UnexpectedEndOfStream :=
      Stream.next_byte_eof_of_drop hdropT
    exact Stream.parse_number_err_assemble hss hend
      (Stream.parse_number_impl_err_assemble h1 h2
        (Stream.scanExponent_eof hcurrE (Or.inl rfl) hnb))
  | cons c2 r =>
    have hnb : (⟨d :: (ds2 ++ 'e' :: c2 :: r), ds2.length + 1⟩ : Stream).next_byte =
        .ok c2 :=
      Stream.next_byte_eq_of_drop hdropT
    have hmx2 : ¬ (c2 = 'm' ∨ c2 = 'x') := by
      simp only [headNotMX] at hmx
      intro hh
      rcases hh with rfl | rfl <;> simp at hmx
    have hexp := Stream.scanExponent_consume hcurrE (Or.inl rfl) hnb hmx2
    by_cases hsgn : c2 = '+' ∨ c2 = '-'
    · rw [if_pos hsgn] at hexp
      have hdropR : (d :: (ds2 ++ 'e' :: c2 :: r)).drop (ds2.length + 1 + 1 + 1) = r := by
        have hdd := List.drop_drop 1 (ds2.length + 1 + 1) (d :: (ds2 ++ 'e' :: c2 :: r))
        rw [← hdd, hdropT]
        rfl
      have hclr : countLeading isDigit r = 0 := by
        cases r with
        | nil => rfl
        | cons d2 r2 =>
          have hnd1 : (if isSign c2 then !(isDigit d2) else !(isDigit c2)) = true := hnd
          rw [if_pos (isSign_iff.mpr hsgn)] at hnd1
          exact countLeading_cons_neg _ (by simpa using hnd1)
      rw [hdropR, hclr] at hexp
      have htake : (d :: (ds2 ++ 'e' :: c2 :: r)).take (ds2.length + 1 + 1 + 1) =
          d :: (ds2 ++ ['e', c2]) := by
        have hsplit : d :: (ds2 ++ 'e' :: c2 :: r) = (d :: (ds2 ++ ['e', c2])) ++ r := by
          simp
        rw [hsplit]
        exact List.take_left' (by simp [List.length_append]; try omega)
      have h4 : rustParseF64
          ((d :: (ds2 ++ 'e' :: c2 :: r)).take (ds2.length + 1 + 1 + 1 + 0)) = none := by
        rw [Nat.add_zero, htake]
        exact rustParseF64_digits_e_sign hd hds hsgn
      exact Stream.parse_number_err_assemble hss hend
        (Stream.parse_number_impl_none_assemble h1 h2 hexp h4)
    · have hnd2 : isDigit c2 = false := by
        cases r with
        | nil =>
          have hnd1 : (if isSign c2 then true else !(isDigit c2)) = true := hnd
          rw [if_neg (fun hs => hsgn (isSign_iff.mp hs))] at hnd1
          simpa using hnd1
        | cons d2 r2 =>
          have hnd1 : (if isSign c2 then !(isDigit d2) else !(isDigit c2)) = true := hnd
          rw [if_neg (fun hs => hsgn (isSign_iff.mp hs))] at hnd1
          simpa using hnd1
      rw [if_neg hsgn, if_neg (by simp [hnd2])] at hexp
      exact Stream.parse_number_err_assemble hss hend
        (Stream.parse_number_impl_err_assemble h1 h2 hexp)

/-- C3: `parse_number` on `"1ex"` and `"1em"` returns `Ok(1.0)` with
the cursor left on the `'e'` (the unit suffix unconsumed); when the
byte after an `e`/`E` marker is `m` or `x` the exponent stage consumes
nothing; in every other case it consumes the marker, an optional sign
and the maximal digit run (failing on a byte that is neither); and a
number whose `e` marker is not followed (after an optional sign) by a
digit is rejected as `InvalidNumber`. -/
theorem claim_c3 :
    (Stream.parse_number ⟨['1', 'e', 'x'], 0⟩ = .ok (1, ⟨['1', 'e', 'x'], 1⟩)) ∧
    (Stream.parse_number ⟨['1', 'e', 'm'], 0⟩ = .ok (1, ⟨['1', 'e', 'm'], 1⟩)) ∧
    (∀ (s : Stream) (c c2 : Char),
      s.curr_byte = .ok c → (c = 'e' ∨ c = 'E') →
      s.next_byte = .ok c2 → (c2 = 'm' ∨ c2 = 'x') →
      s.scanExponent = .ok s) ∧
    (∀ (s : Stream) (c c2 : Char),
      s.curr_byte = .ok c → (c = 'e' ∨ c = 'E') →
      s.next_byte = .ok c2 → ¬(c2 = 'm' ∨ c2 = 'x') →
      s.scanExponent =
        (if c2 = '+' ∨ c2 = '-' then
          .ok ⟨s.text, s.pos + 1 + 1 + countLeading isDigit (s.text.drop (s.pos + 1 + 1))⟩
        else if isDigit c2 then
          .ok ⟨s.text, s.pos + 1 + countLeading isDigit (s.text.drop (s.pos + 1))⟩
        else .error (.InvalidNumber 0))) ∧
    (∀ ds t : List Char, ds ≠ [] → ds.all isDigit = true →
      headNotMX t = true → noDigitAfterSign t = true →
      Stream.parse_number ⟨ds ++ 'e' :: t, 0⟩ = .error (.InvalidNumber 1)) :=
  ⟨by decide, by decide,
   fun _ _ _ hc he hn hmx => Stream.scanExponent_suffix hc he hn hmx,
   fun _ _ _ hc he hn hmx => Stream.scanExponent_consume hc he hn hmx,
   parse_number_digits_e_fail⟩

/-- C3 witness: the no-digit-after-marker part applied to `"1e+"`. -/
theorem claim_c3_witness :
    Stream.parse_number ⟨['1'] ++ 'e' :: ['+'], 0⟩ = .error (.InvalidNumber 1) :=
  claim_c3.2.2.2.2 ['1'] ['+'] (by decide) (by decide) (by decide) (by decide)

end Svgtypes
